import Mathlib

/-!
Shallow embedding of the VocabVault practice scoring and selection engine
(src/vocabvault.py) together with proofs about its drill protocols.

Modelling conventions:
* A Python item dict `{"russian": ..., "english": ..., "score": ...}` is a
  `VocabItem`; a missing `"score"` key is `score = none`, and `item.get("score", 0)`
  is `getScore`.
* The store (one category's item list) is a `List VocabItem`.  Python's shared
  mutable references into that list are modelled as positions (`Nat` indices):
  a drill's working set is a `List Nat` of store indices, and an in-place
  mutation of an item is `List.set` at its index.
* Randomness (`random.shuffle`, `random.sample`) is modelled
  nondeterministically: the shuffling/sampling functions are parameters, and
  theorems either hold for every such function or assume it permutes /
  samples correctly.
* Python's `sorted` is a stable sort; it is modelled by `List.insertionSort`
  over store indices (insertion sort is stable, and the proofs characterise
  the result up to the unique stably-sorted list).
-/

/-- One vocabulary item: the dict `{"russian": ..., "english": ..., "score": ...}`.
`score = none` models a dict without the `"score"` key. -/
structure VocabItem where
  russian : String
  english : String
  score : Option Int
deriving DecidableEq

/-- `item.get('score', 0)` from `mark_known` / `mark_unknown` / `validate_match`. -/
def getScore (it : VocabItem) : Int :=
  it.score.getD 0

/-- The (term, definition) content of an item, used to state frame properties. -/
def itemText (it : VocabItem) : String × String :=
  (it.russian, it.english)

/-- Score update on a correct answer:
`item['score'] = min(item.get('score', 0) + 1, self.max_score)`
(FlashcardDialog.mark_known line 108, MatchingDialog.validate_match line 278). -/
def applyCorrect (it : VocabItem) (maxScore : Int) : VocabItem :=
  { it with score := some (min (getScore it + 1) maxScore) }

/-- Score update on an incorrect answer:
`item['score'] = item.get('score', 0) - 1`
(FlashcardDialog.mark_unknown line 115, MatchingDialog.validate_match lines 295-296). -/
def applyIncorrect (it : VocabItem) : VocabItem :=
  { it with score := some (getScore it - 1) }

/-- In-place mutation of the store item at index `idx` (a Python write through a
shared reference).  Out-of-range indices leave the store unchanged; all reachable
drill states only mutate in-range indices. -/
def mutateAt (store : List VocabItem) (idx : Nat) (f : VocabItem → VocabItem) : List VocabItem :=
  match store[idx]? with
  | some it => store.set idx (f it)
  | none => store

/-- A single correctness judgment. -/
inductive ScoreOp where
  | correct
  | incorrect
deriving DecidableEq

/-- Apply one judgment to one item. -/
def applyOp (maxScore : Int) (it : VocabItem) (op : ScoreOp) : VocabItem :=
  match op with
  | ScoreOp.correct => applyCorrect it maxScore
  | ScoreOp.incorrect => applyIncorrect it

/-- Apply a finite sequence of judgments to one item. -/
def applyOps (maxScore : Int) (ops : List ScoreOp) (it : VocabItem) : VocabItem :=
  ops.foldl (applyOp maxScore) it

/-- The score key used by the weak-mode sort:
`sorted(items, key=lambda x: x.get('score', 0))`, read off a store index. -/
def keyOf (store : List VocabItem) (i : Nat) : Int :=
  match store[i]? with
  | some it => getScore it
  | none => 0

/-- `sorted(items, key=lambda x: x.get('score', 0))` (start_practice line 559,
start_matching line 592), modelled as a stable sort of the store indices by score. -/
def sortByScore (store : List VocabItem) : List Nat :=
  List.insertionSort (fun i j => keyOf store i ≤ keyOf store j) (List.range store.length)

/-- Weak-mode selection: `sorted_items[:count]` (start_practice line 560). -/
def selectWeak (store : List VocabItem) (count : Nat) : List Nat :=
  (sortByScore store).take count

/-- Strict part of the stable ordering: ascending score, ties broken by the
original position in the category. -/
def scoreTieLt (store : List VocabItem) (i j : Nat) : Prop :=
  keyOf store i < keyOf store j ∨ (keyOf store i = keyOf store j ∧ i < j)

/-- Selection mode of a drill. -/
inductive Mode where
  | random
  | weak
deriving DecidableEq

/-- Result of `start_practice` / `start_matching`: either the `EmptyCategory`
failure (the no-items message box, no dialog launched) or a drill handle holding
the working set of store indices. -/
inductive StartResult where
  | emptyCategory
  | drill (ws : List Nat)
deriving DecidableEq

/-- `VocabVault.start_practice` (lines 547-567): empty-category check, then weak
or random selection.  `shuffle` stands for `random.shuffle`, `sample k l` for
`random.sample(l, k)`.  The returned store is the (unmodified) category list. -/
def start_practice (store : List VocabItem) (mode : Mode) (count : Nat)
    (shuffle : List Nat → List Nat) (sample : Nat → List Nat → List Nat) :
    StartResult × List VocabItem :=
  if store.length = 0 then (StartResult.emptyCategory, store)
  else
    match mode with
    | Mode.weak => (StartResult.drill (shuffle (selectWeak store count)), store)
    | Mode.random =>
        (StartResult.drill (sample (min count store.length) (List.range store.length)), store)

/-- `VocabVault.start_matching` (lines 573-599): empty-category check,
`count = min(rounds * 10, len(items))`, the defensive `count == 0` bare return
(reachable only for an empty category, modelled as the same failure), then weak
or random selection exactly as in `start_practice`. -/
def start_matching (store : List VocabItem) (mode : Mode) (rounds : Nat)
    (shuffle : List Nat → List Nat) (sample : Nat → List Nat → List Nat) :
    StartResult × List VocabItem :=
  if store.length = 0 then (StartResult.emptyCategory, store)
  else
    let count := min (rounds * 10) store.length
    if count = 0 then (StartResult.emptyCategory, store)
    else
      match mode with
      | Mode.weak => (StartResult.drill (shuffle (selectWeak store count)), store)
      | Mode.random => (StartResult.drill (sample count (List.range store.length)), store)

/-- Card phase of the flashcard drill: definition hidden (judge buttons shown),
definition revealed (only Next shown), or the dialog accepted. -/
inductive FlashPhase where
  | hidden
  | revealed
  | finished
deriving DecidableEq

/-- User signals of the flashcard drill: the two judge buttons and Next. -/
inductive Signal where
  | correct
  | incorrect
  | advance
deriving DecidableEq

/-- State of a `FlashcardDialog`: the shared store, the working set
(`self.items`, as store indices), `self.current_index`, and the card phase. -/
structure FlashState where
  store : List VocabItem
  ws : List Nat
  currentIndex : Nat
  phase : FlashPhase
deriving DecidableEq

/-- `FlashcardDialog.mark_known` (lines 104-109): +1 capped at `max_score` on the
current card's item, then reveal the answer. -/
def mark_known (maxScore : Int) (s : FlashState) : FlashState :=
  match s.ws[s.currentIndex]? with
  | some idx =>
      { s with store := mutateAt s.store idx (fun it => applyCorrect it maxScore),
               phase := FlashPhase.revealed }
  | none => { s with phase := FlashPhase.revealed }

/-- `FlashcardDialog.mark_unknown` (lines 111-116): -1 with no floor on the
current card's item, then reveal the answer. -/
def mark_unknown (s : FlashState) : FlashState :=
  match s.ws[s.currentIndex]? with
  | some idx =>
      { s with store := mutateAt s.store idx applyIncorrect,
               phase := FlashPhase.revealed }
  | none => { s with phase := FlashPhase.revealed }

/-- `FlashcardDialog.next_card` (lines 131-137): advance to the next card or
accept the dialog on the last card. -/
def next_card (s : FlashState) : FlashState :=
  if s.currentIndex < s.ws.length - 1 then
    { s with currentIndex := s.currentIndex + 1, phase := FlashPhase.hidden }
  else
    { s with phase := FlashPhase.finished }

/-- One user interaction with the flashcard dialog.  `none` means the clicked
button is not visible in the current phase (hidden buttons emit no click). -/
def flashStep (maxScore : Int) (s : FlashState) (sig : Signal) : Option FlashState :=
  match s.phase, sig with
  | FlashPhase.hidden, Signal.correct => some (mark_known maxScore s)
  | FlashPhase.hidden, Signal.incorrect => some (mark_unknown s)
  | FlashPhase.revealed, Signal.advance => some (next_card s)
  | _, _ => none

/-- Run a sequence of signals; fails if any signal is impossible in its phase. -/
def flashRun (maxScore : Int) (s : FlashState) : List Signal → Option FlashState
  | [] => some s
  | sig :: rest =>
      match flashStep maxScore s sig with
      | some s' => flashRun maxScore s' rest
      | none => none

/-- Total variant of `flashRun` for frame properties: impossible signals are
ignored, so any interleaving (including an abandoned prefix) is a state. -/
def flashFold (maxScore : Int) (s : FlashState) (sigs : List Signal) : FlashState :=
  sigs.foldl (fun s sig => (flashStep maxScore s sig).getD s) s

/-- Is a signal a correctness judgment (a click on `I Know This` / `I Don't Know`)? -/
def isJudgment : Signal → Bool
  | Signal.correct => true
  | Signal.incorrect => true
  | Signal.advance => false

/-- Number of correctness judgments in a signal sequence. -/
def countJudgments (sigs : List Signal) : Nat :=
  (sigs.filter isJudgment).length

/-- Button column of the matching exercise. -/
inductive Column where
  | russian
  | english
deriving DecidableEq

/-- State of one `MatchingDialog` round: the shared store, the two selection
cursors (each holding the store index carried by the selected button's
`item_data`), the remaining-pairs counter, and the store indices whose term /
definition buttons have been disabled by a correct match. -/
structure MatchState where
  store : List VocabItem
  selRussian : Option Nat
  selEnglish : Option Nat
  remainingPairs : Int
  disabledR : List Nat
  disabledE : List Nat
deriving DecidableEq

/-- `MatchingDialog.validate_match` (lines 264-306).  The match test is Python
dict equality `r_item == e_item`, i.e. value equality of (term, definition,
score) — not object identity.  On a match: +1 capped applied once through the
term button's reference, both buttons disabled, cursors cleared, pair counter
decremented.  On a mismatch: -1 applied through both references, cursors
cleared, nothing disabled. -/
def validate_match (maxScore : Int) (s : MatchState) : MatchState :=
  match s.selRussian, s.selEnglish with
  | some rIdx, some eIdx =>
      match s.store[rIdx]?, s.store[eIdx]? with
      | some rItem, some eItem =>
          if rItem = eItem then
            { s with
              store := s.store.set rIdx (applyCorrect rItem maxScore),
              selRussian := none, selEnglish := none,
              disabledR := rIdx :: s.disabledR,
              disabledE := eIdx :: s.disabledE,
              remainingPairs := s.remainingPairs - 1 }
          else
            { s with
              store := (s.store.set rIdx (applyIncorrect rItem)).set eIdx (applyIncorrect eItem),
              selRussian := none, selEnglish := none }
      | _, _ => s
  | _, _ => s

/-- `MatchingDialog.handle_click` (lines 238-262) for the button `(col, idx)`:
clicks on disabled buttons never arrive; a click on the already-selected button
toggles it off; otherwise the button becomes its column's selection (replacing
any previous one) and the match check fires exactly when both cursors are set. -/
def handle_click (maxScore : Int) (s : MatchState) (col : Column) (idx : Nat) : MatchState :=
  if (col = Column.russian ∧ idx ∈ s.disabledR) ∨ (col = Column.english ∧ idx ∈ s.disabledE) then
    s
  else if (col = Column.russian ∧ s.selRussian = some idx) ∨
      (col = Column.english ∧ s.selEnglish = some idx) then
    match col with
    | Column.russian => { s with selRussian := none }
    | Column.english => { s with selEnglish := none }
  else
    let s' := match col with
      | Column.russian => { s with selRussian := some idx }
      | Column.english => { s with selEnglish := some idx }
    if s'.selRussian.isSome ∧ s'.selEnglish.isSome then validate_match maxScore s' else s'

/-- Total run of a click sequence on a matching round. -/
def clickFold (maxScore : Int) (s : MatchState) (clicks : List (Column × Nat)) : MatchState :=
  clicks.foldl (fun s c => handle_click maxScore s c.1 c.2) s

/-- `self.round_size = 10` (MatchingDialog.__init__ line 149). -/
def round_size : Nat := 10

/-- `self.total_rounds = (len(items) + self.round_size - 1) // self.round_size`
(MatchingDialog.__init__ line 151), as a function of the working-set size. -/
def total_rounds (m : Nat) : Nat :=
  (m + round_size - 1) / round_size

/-- The chunk played in round `r`:
`self.all_items[start:end]` with `start = r * round_size`, `end = start + round_size`
(MatchingDialog.start_round lines 195-197), over working-set indices. -/
def roundChunk (ws : List Nat) (r : Nat) : List Nat :=
  (ws.drop (r * round_size)).take round_size

/-- The two button columns laid out by `MatchingDialog.start_round`. -/
structure RoundLayout where
  russianCol : List Nat
  englishCol : List Nat
deriving DecidableEq

/-- `MatchingDialog.start_round` (lines 185-236): the Russian buttons are added
to the grid in working-set chunk order; the English buttons are built in the
same order and then shuffled (`random.shuffle(english_btns)`, line 227) —
`shuffleEnglish` stands for that single shuffle. -/
def start_round (ws : List Nat) (r : Nat) (shuffleEnglish : List Nat → List Nat) : RoundLayout :=
  { russianCol := roundChunk ws r,
    englishCol := shuffleEnglish (roundChunk ws r) }

/-- Store with two structurally identical items (same term, definition and
score) at distinct positions, and the term button of item 0 plus the definition
button of item 1 selected: the duplicate-content edge case. -/
def dupStore : List VocabItem :=
  [{ russian := "кот", english := "cat", score := some 0 },
   { russian := "кот", english := "cat", score := some 0 }]

/-- Round state for `dupStore` with the cross pair selected. -/
def dupState : MatchState :=
  { store := dupStore, selRussian := some 0, selEnglish := some 1,
    remainingPairs := 2, disabledR := [], disabledE := [] }

/-- Store with two distinct items disagreeing in content. -/
def mmStore : List VocabItem :=
  [{ russian := "дом", english := "house", score := some 0 },
   { russian := "кот", english := "cat", score := some 3 }]

/-- Round state for `mmStore` with a mismatched pair selected. -/
def mmState : MatchState :=
  { store := mmStore, selRussian := some 0, selEnglish := some 1,
    remainingPairs := 2, disabledR := [], disabledE := [] }

/-- Concrete 15-item category used to instantiate the matching-round claims. -/
def store15 : List VocabItem :=
  List.replicate 15 { russian := "дом", english := "house", score := some 0 }

/-- Concrete 3-item category with one strong and two weak items. -/
def store3 : List VocabItem :=
  [{ russian := "дом", english := "house", score := some 5 },
   { russian := "кот", english := "cat", score := some 0 },
   { russian := "сад", english := "garden", score := some 0 }]

/-- Concrete 2-item category for the end-to-end flashcard run. -/
def store2 : List VocabItem :=
  [{ russian := "дом", english := "house", score := some 0 },
   { russian := "кот", english := "cat", score := some 0 }]

lemma getScore_applyCorrect (it : VocabItem) (maxScore : Int) :
    getScore (applyCorrect it maxScore) = min (getScore it + 1) maxScore := rfl

lemma getScore_applyIncorrect (it : VocabItem) :
    getScore (applyIncorrect it) = getScore it - 1 := rfl

lemma itemText_applyCorrect (it : VocabItem) (maxScore : Int) :
    itemText (applyCorrect it maxScore) = itemText it := rfl

lemma itemText_applyIncorrect (it : VocabItem) :
    itemText (applyIncorrect it) = itemText it := rfl

lemma set_text_preserved (store : List VocabItem) (idx : Nat) (it it' : VocabItem)
    (h : store[idx]? = some it) (htext : itemText it' = itemText it) :
    ∀ j : Nat, ((store.set idx it')[j]?).map itemText = (store[j]?).map itemText := by
  intro j
  by_cases hj : j = idx
  · subst hj
    have hlt : j < store.length := by
      by_contra hge
      rw [List.getElem?_eq_none (Nat.le_of_not_lt hge)] at h
      exact Option.noConfusion h
    rw [List.getElem?_set_eq_of_lt _ hlt, h]
    simp [htext]
  · rw [List.getElem?_set_ne (Ne.symm hj)]

lemma mutateAt_length (store : List VocabItem) (idx : Nat) (f : VocabItem → VocabItem) :
    (mutateAt store idx f).length = store.length := by
  unfold mutateAt
  cases h : store[idx]? <;> simp

lemma mutateAt_text (store : List VocabItem) (idx : Nat) (f : VocabItem → VocabItem)
    (hf : ∀ it, itemText (f it) = itemText it) :
    ∀ j : Nat, ((mutateAt store idx f)[j]?).map itemText = (store[j]?).map itemText := by
  intro j
  unfold mutateAt
  cases h : store[idx]? with
  | none => rfl
  | some it => exact set_text_preserved store idx it (f it) h (hf it) j

lemma validate_match_store_cases (maxScore : Int) (s : MatchState) :
    (validate_match maxScore s).store = s.store ∨
    (∃ i it, s.store[i]? = some it ∧
      (validate_match maxScore s).store = s.store.set i (applyCorrect it maxScore)) ∨
    (∃ i j a b, i ≠ j ∧ s.store[i]? = some a ∧ s.store[j]? = some b ∧
      (validate_match maxScore s).store =
        (s.store.set i (applyIncorrect a)).set j (applyIncorrect b)) := by
  cases hr : s.selRussian with
  | none => exact Or.inl (by simp [validate_match, hr])
  | some rIdx =>
    cases he : s.selEnglish with
    | none => exact Or.inl (by simp [validate_match, hr, he])
    | some eIdx =>
      cases hri : s.store[rIdx]? with
      | none => exact Or.inl (by simp [validate_match, hr, he, hri])
      | some rItem =>
        cases hei : s.store[eIdx]? with
        | none => exact Or.inl (by simp [validate_match, hr, he, hri, hei])
        | some eItem =>
          by_cases hm : rItem = eItem
          · refine Or.inr (Or.inl ⟨rIdx, rItem, hri, ?_⟩)
            simp [validate_match, hr, he, hri, hei, hm]
          · refine Or.inr (Or.inr ⟨rIdx, eIdx, rItem, eItem, ?_, hri, hei, ?_⟩)
            · intro hij
              rw [hij, hei] at hri
              exact hm (Option.some.inj hri).symm
            · simp [validate_match, hr, he, hri, hei, hm]

lemma handle_click_store_cases (maxScore : Int) (s : MatchState) (col : Column) (idx : Nat) :
    (handle_click maxScore s col idx).store = s.store ∨
    (∃ i it, s.store[i]? = some it ∧
      (handle_click maxScore s col idx).store = s.store.set i (applyCorrect it maxScore)) ∨
    (∃ i j a b, i ≠ j ∧ s.store[i]? = some a ∧ s.store[j]? = some b ∧
      (handle_click maxScore s col idx).store =
        (s.store.set i (applyIncorrect a)).set j (applyIncorrect b)) := by
  unfold handle_click
  split
  · exact Or.inl rfl
  · split
    · cases col <;> exact Or.inl rfl
    · cases col with
      | russian =>
        simp only
        split
        · exact validate_match_store_cases maxScore { s with selRussian := some idx }
        · exact Or.inl rfl
      | english =>
        simp only
        split
        · exact validate_match_store_cases maxScore { s with selEnglish := some idx }
        · exact Or.inl rfl

lemma flashStep_store_cases (maxScore : Int) (s : FlashState) (sig : Signal)
    (s' : FlashState) (h : flashStep maxScore s sig = some s') :
    s'.store = s.store ∨
    (∃ i it, s.store[i]? = some it ∧ s'.store = s.store.set i (applyCorrect it maxScore)) ∨
    (∃ i it, s.store[i]? = some it ∧ s'.store = s.store.set i (applyIncorrect it)) := by
  cases hp : s.phase <;> cases sig <;>
    simp only [flashStep, hp] at h <;> try exact Option.noConfusion h
  · -- hidden, correct
    rw [← Option.some.inj h]
    unfold mark_known
    cases hw : s.ws[s.currentIndex]? with
    | none => exact Or.inl rfl
    | some idx =>
      simp only
      unfold mutateAt
      cases hi : s.store[idx]? with
      | none => exact Or.inl rfl
      | some it => exact Or.inr (Or.inl ⟨idx, it, hi, rfl⟩)
  · -- hidden, incorrect
    rw [← Option.some.inj h]
    unfold mark_unknown
    cases hw : s.ws[s.currentIndex]? with
    | none => exact Or.inl rfl
    | some idx =>
      simp only
      unfold mutateAt
      cases hi : s.store[idx]? with
      | none => exact Or.inl rfl
      | some it => exact Or.inr (Or.inr ⟨idx, it, hi, rfl⟩)
  · -- revealed, advance
    rw [← Option.some.inj h]
    unfold next_card
    split <;> exact Or.inl rfl

/-- C1: `applyCorrect` sets the score to `min(score + 1, maxScore)` and
`applyIncorrect` sets it to `score - 1` with no lower bound, both leaving the
term and definition untouched; a missing score field reads as 0; and every
drill transition of either dialog leaves the store unchanged or mutates it
exactly by one of these two operations on judged items — they are the only
score mutators. -/
theorem C1_score_model (maxScore : Int) :
    (∀ it : VocabItem,
      (applyCorrect it maxScore).score = some (min (getScore it + 1) maxScore) ∧
      itemText (applyCorrect it maxScore) = itemText it) ∧
    (∀ it : VocabItem,
      (applyIncorrect it).score = some (getScore it - 1) ∧
      itemText (applyIncorrect it) = itemText it) ∧
    (∀ it : VocabItem, it.score = none → getScore it = 0) ∧
    (∀ (s : FlashState) (sig : Signal) (s' : FlashState),
      flashStep maxScore s sig = some s' →
      s'.store = s.store ∨
      (∃ i it, s.store[i]? = some it ∧ s'.store = s.store.set i (applyCorrect it maxScore)) ∨
      (∃ i it, s.store[i]? = some it ∧ s'.store = s.store.set i (applyIncorrect it))) ∧
    (∀ (s : MatchState) (col : Column) (idx : Nat),
      (handle_click maxScore s col idx).store = s.store ∨
      (∃ i it, s.store[i]? = some it ∧
        (handle_click maxScore s col idx).store = s.store.set i (applyCorrect it maxScore)) ∨
      (∃ i j a b, i ≠ j ∧ s.store[i]? = some a ∧ s.store[j]? = some b ∧
        (handle_click maxScore s col idx).store =
          (s.store.set i (applyIncorrect a)).set j (applyIncorrect b))) := by
  refine ⟨fun it => ⟨rfl, rfl⟩, fun it => ⟨rfl, rfl⟩, ?_, ?_, ?_⟩
  · intro it h
    simp [getScore, h]
  · exact fun s sig s' h => flashStep_store_cases maxScore s sig s' h
  · exact fun s col idx => handle_click_store_cases maxScore s col idx

/-- Witness for C1 at a concrete item without a score field. -/
theorem C1_score_model_witness :
    getScore { russian := "кот", english := "cat", score := none } = 0 :=
  (C1_score_model 10).2.2.1 { russian := "кот", english := "cat", score := none } rfl

lemma applyOps_nil (maxScore : Int) (it : VocabItem) : applyOps maxScore [] it = it := rfl

lemma applyOps_cons (maxScore : Int) (op : ScoreOp) (ops : List ScoreOp) (it : VocabItem) :
    applyOps maxScore (op :: ops) it = applyOps maxScore ops (applyOp maxScore it op) := rfl

lemma applyOps_replicate_incorrect (maxScore : Int) :
    ∀ (n : Nat) (it : VocabItem),
      getScore (applyOps maxScore (List.replicate n ScoreOp.incorrect) it) =
        getScore it - n := by
  intro n
  induction n with
  | zero => intro it; simp [applyOps]
  | succ k ih =>
    intro it
    rw [List.replicate_succ, applyOps_cons]
    have := ih (applyOp maxScore it ScoreOp.incorrect)
    rw [this]
    simp only [applyOp, getScore_applyIncorrect]
    push_cast
    ring

/-- C2: starting from any score at most `maxScore`, every finite sequence of
judgments keeps the score at most `maxScore`; and for every integer bound `b`
some number of incorrect judgments takes the score strictly below `b`. -/
theorem C2_score_bounds (maxScore : Int) :
    (∀ (it : VocabItem) (ops : List ScoreOp), getScore it ≤ maxScore →
      getScore (applyOps maxScore ops it) ≤ maxScore) ∧
    (∀ (b : Int) (it : VocabItem), ∃ n : Nat,
      getScore (applyOps maxScore (List.replicate n ScoreOp.incorrect) it) < b) := by
  constructor
  · intro it ops
    induction ops generalizing it with
    | nil => intro h; simpa [applyOps] using h
    | cons op rest ih =>
      intro h
      rw [applyOps_cons]
      apply ih
      cases op with
      | correct =>
        simp only [applyOp, getScore_applyCorrect]
        exact min_le_right _ _
      | incorrect =>
        simp only [applyOp, getScore_applyIncorrect]
        omega
  · intro b it
    refine ⟨(getScore it - b + 1).toNat, ?_⟩
    rw [applyOps_replicate_incorrect]
    omega

/-- Witness for C2 at the capped item of end-to-end scenario B
(score 10, maxScore 10, one correct judgment). -/
theorem C2_score_bounds_witness :
    getScore (applyOps 10 [ScoreOp.correct]
      { russian := "дом", english := "house", score := some 10 }) ≤ 10 :=
  (C2_score_bounds 10).1 { russian := "дом", english := "house", score := some 10 }
    [ScoreOp.correct] (by decide)

lemma pairwise_scoreTieLt_orderedInsert (store : List VocabItem) (x : Nat) :
    ∀ l : List Nat, l.Pairwise (scoreTieLt store) → (∀ z ∈ l, x < z) →
      (List.orderedInsert (fun i j => keyOf store i ≤ keyOf store j) x l).Pairwise
        (scoreTieLt store) := by
  intro l
  induction l with
  | nil =>
    intro _ _
    simp [List.orderedInsert]
  | cons y ys ih =>
    intro hp hx
    rcases List.pairwise_cons.mp hp with ⟨hy, hys⟩
    rw [List.orderedInsert]
    by_cases hxy : keyOf store x ≤ keyOf store y
    · rw [if_pos hxy]
      refine List.Pairwise.cons ?_ hp
      intro z hz
      rcases List.mem_cons.mp hz with hzy | hzys
      · subst hzy
        rcases lt_or_eq_of_le hxy with hlt | heq
        · exact Or.inl hlt
        · exact Or.inr ⟨heq, hx z (List.mem_cons_self z ys)⟩
      · have hyz' : keyOf store y ≤ keyOf store z := by
          rcases hy z hzys with h | ⟨h, _⟩
          · exact le_of_lt h
          · exact le_of_eq h
        rcases lt_or_eq_of_le (le_trans hxy hyz') with hlt | heq
        · exact Or.inl hlt
        · exact Or.inr ⟨heq, hx z hz⟩
    · rw [if_neg hxy]
      have hyx : keyOf store y < keyOf store x := lt_of_not_le hxy
      refine List.Pairwise.cons ?_ (ih hys (fun z hz => hx z (List.mem_cons_of_mem y hz)))
      intro z hz
      rcases (List.mem_orderedInsert _).mp hz with rfl | hzys
      · exact Or.inl hyx
      · exact hy z hzys

lemma pairwise_scoreTieLt_insertionSort (store : List VocabItem) :
    ∀ l : List Nat, l.Pairwise (fun i j => i < j) →
      (List.insertionSort (fun i j => keyOf store i ≤ keyOf store j) l).Pairwise
        (scoreTieLt store) := by
  intro l
  induction l with
  | nil => intro _; simp
  | cons x xs ih =>
    intro hp
    rcases List.pairwise_cons.mp hp with ⟨hx, hxs⟩
    rw [List.insertionSort]
    exact pairwise_scoreTieLt_orderedInsert store x _ (ih hxs)
      (fun z hz => hx z ((List.mem_insertionSort _).mp hz))

lemma sortByScore_pairwise (store : List VocabItem) :
    (sortByScore store).Pairwise (scoreTieLt store) :=
  pairwise_scoreTieLt_insertionSort store _ (List.pairwise_lt_range store.length)

lemma sortByScore_perm (store : List VocabItem) :
    (sortByScore store).Perm (List.range store.length) :=
  List.perm_insertionSort _ _

lemma sortByScore_length (store : List VocabItem) :
    (sortByScore store).length = store.length := by
  rw [(sortByScore_perm store).length_eq, List.length_range]

lemma selectWeak_length (store : List VocabItem) (count : Nat) :
    (selectWeak store count).length = min count store.length := by
  unfold selectWeak
  rw [List.length_take, sortByScore_length]

/-- C3: on a non-empty category with `requestedCount >= 1`, weak-mode selection
launches a drill whose working set is a permutation (the presentation shuffle)
of `selectWeak`, which has exactly `min(requestedCount, categorySize)` elements;
the underlying sorted index list is a permutation of all category positions,
sorted ascending by pre-selection score with ties broken by original position
(the stable sort), so the taken prefix consists of the lowest-scored items. -/
theorem C3_weak_selection (store : List VocabItem) (count : Nat)
    (shuffle : List Nat → List Nat) (sample : Nat → List Nat → List Nat)
    (hne : store ≠ []) (hcount : 1 ≤ count)
    (hshuffle : ∀ l : List Nat, (shuffle l).Perm l) :
    ((start_practice store Mode.weak count shuffle sample).1 =
        StartResult.drill (shuffle (selectWeak store count)) ∧
      (shuffle (selectWeak store count)).Perm (selectWeak store count) ∧
      (shuffle (selectWeak store count)).length = min count store.length) ∧
    (selectWeak store count).length = min count store.length ∧
    (sortByScore store).Perm (List.range store.length) ∧
    (sortByScore store).Pairwise (scoreTieLt store) ∧
    (∀ i ∈ selectWeak store count, ∀ j ∈ (sortByScore store).drop count,
      keyOf store i ≤ keyOf store j) := by
  have hlen : ¬store.length = 0 := fun h => hne (List.length_eq_zero.mp h)
  refine ⟨⟨?_, hshuffle _, ?_⟩, selectWeak_length store count, sortByScore_perm store,
    sortByScore_pairwise store, ?_⟩
  · simp [start_practice, hlen]
  · rw [(hshuffle _).length_eq, selectWeak_length]
  · intro i hi j hj
    have hpair := sortByScore_pairwise store
    rw [← List.take_append_drop count (sortByScore store)] at hpair
    rcases List.pairwise_append.mp hpair with ⟨_, _, hcross⟩
    have hi' : i ∈ (sortByScore store).take count := hi
    rcases hcross i hi' j hj with hlt | ⟨heq, _⟩
    · exact le_of_lt hlt
    · exact le_of_eq heq

/-- Witness for C3 on a 3-item category (scores 5, 0, 0), requesting 2 cards
with the identity shuffle. -/
theorem C3_weak_selection_witness :
    (selectWeak store3 2).length = min 2 store3.length :=
  (C3_weak_selection store3 2 (fun l => l) (fun _ l => l) (List.cons_ne_nil _ _)
    (by decide) (fun l => List.Perm.refl l)).2.1

/-- C6: starting either drill on an empty category fails with the
`EmptyCategory` condition: no drill handle is created and the store is
returned unchanged. -/
theorem C6_empty_category (mode : Mode) (count rounds : Nat)
    (shuffle : List Nat → List Nat) (sample : Nat → List Nat → List Nat) :
    start_practice [] mode count shuffle sample = (StartResult.emptyCategory, []) ∧
    start_matching [] mode rounds shuffle sample = (StartResult.emptyCategory, []) :=
  ⟨rfl, rfl⟩

lemma mark_known_ws (maxScore : Int) (s : FlashState) :
    (mark_known maxScore s).ws = s.ws := by
  unfold mark_known
  cases s.ws[s.currentIndex]? <;> rfl

lemma mark_known_currentIndex (maxScore : Int) (s : FlashState) :
    (mark_known maxScore s).currentIndex = s.currentIndex := by
  unfold mark_known
  cases s.ws[s.currentIndex]? <;> rfl

lemma mark_known_phase (maxScore : Int) (s : FlashState) :
    (mark_known maxScore s).phase = FlashPhase.revealed := by
  unfold mark_known
  cases s.ws[s.currentIndex]? <;> rfl

lemma mark_unknown_ws (s : FlashState) : (mark_unknown s).ws = s.ws := by
  unfold mark_unknown
  cases s.ws[s.currentIndex]? <;> rfl

lemma mark_unknown_currentIndex (s : FlashState) :
    (mark_unknown s).currentIndex = s.currentIndex := by
  unfold mark_unknown
  cases s.ws[s.currentIndex]? <;> rfl

lemma mark_unknown_phase (s : FlashState) :
    (mark_unknown s).phase = FlashPhase.revealed := by
  unfold mark_unknown
  cases s.ws[s.currentIndex]? <;> rfl

lemma flashRun_finished (maxScore : Int) :
    ∀ (sigs : List Signal) (s t : FlashState), s.phase = FlashPhase.finished →
      flashRun maxScore s sigs = some t → sigs = [] ∧ t = s := by
  intro sigs s t hp hrun
  cases sigs with
  | nil => exact ⟨rfl, (Option.some.inj hrun).symm⟩
  | cons sig rest =>
    rw [flashRun] at hrun
    cases sig <;> simp [flashStep, hp] at hrun

lemma countJudgments_correct (rest : List Signal) :
    countJudgments (Signal.correct :: rest) = countJudgments rest + 1 := by
  simp [countJudgments, List.filter_cons, isJudgment]

lemma countJudgments_incorrect (rest : List Signal) :
    countJudgments (Signal.incorrect :: rest) = countJudgments rest + 1 := by
  simp [countJudgments, List.filter_cons, isJudgment]

lemma countJudgments_advance (rest : List Signal) :
    countJudgments (Signal.advance :: rest) = countJudgments rest := by
  simp [countJudgments, List.filter_cons, isJudgment]

lemma flashRun_judgment_count (maxScore : Int) :
    ∀ (sigs : List Signal) (s t : FlashState),
      flashRun maxScore s sigs = some t → t.phase = FlashPhase.finished →
      s.currentIndex < s.ws.length →
      (s.phase = FlashPhase.hidden →
        countJudgments sigs = s.ws.length - s.currentIndex) ∧
      (s.phase = FlashPhase.revealed →
        countJudgments sigs = s.ws.length - 1 - s.currentIndex) := by
  intro sigs
  induction sigs with
  | nil =>
    intro s t hrun hfin hlt
    obtain rfl : s = t := Option.some.inj hrun
    constructor <;> intro hp <;> rw [hp] at hfin <;> exact FlashPhase.noConfusion hfin
  | cons sig rest ih =>
    intro s t hrun hfin hlt
    rw [flashRun] at hrun
    cases hp : s.phase with
    | hidden =>
      cases sig with
      | correct =>
        have hstep : flashStep maxScore s Signal.correct = some (mark_known maxScore s) := by
          simp [flashStep, hp]
        rw [hstep] at hrun
        have h2 := ih (mark_known maxScore s) t hrun hfin
          (by rw [mark_known_currentIndex, mark_known_ws]; exact hlt)
        have h3 := h2.2 (mark_known_phase maxScore s)
        rw [mark_known_ws, mark_known_currentIndex] at h3
        constructor
        · intro _
          rw [countJudgments_correct, h3]
          omega
        · intro hr
          exact FlashPhase.noConfusion hr
      | incorrect =>
        have hstep : flashStep maxScore s Signal.incorrect = some (mark_unknown s) := by
          simp [flashStep, hp]
        rw [hstep] at hrun
        have h2 := ih (mark_unknown s) t hrun hfin
          (by rw [mark_unknown_currentIndex, mark_unknown_ws]; exact hlt)
        have h3 := h2.2 (mark_unknown_phase s)
        rw [mark_unknown_ws, mark_unknown_currentIndex] at h3
        constructor
        · intro _
          rw [countJudgments_incorrect, h3]
          omega
        · intro hr
          exact FlashPhase.noConfusion hr
      | advance =>
        simp [flashStep, hp] at hrun
    | revealed =>
      cases sig with
      | correct => simp [flashStep, hp] at hrun
      | incorrect => simp [flashStep, hp] at hrun
      | advance =>
        have hstep : flashStep maxScore s Signal.advance = some (next_card s) := by
          simp [flashStep, hp]
        rw [hstep] at hrun
        by_cases hlast : s.currentIndex < s.ws.length - 1
        · have hnc : next_card s =
              { s with currentIndex := s.currentIndex + 1, phase := FlashPhase.hidden } := by
            simp [next_card, hlast]
          rw [hnc] at hrun
          have h2 := ih _ t hrun hfin (by show s.currentIndex + 1 < s.ws.length; omega)
          have h3 : countJudgments rest = s.ws.length - (s.currentIndex + 1) := h2.1 rfl
          constructor
          · intro hh
            exact FlashPhase.noConfusion hh
          · intro _
            rw [countJudgments_advance, h3]
            omega
        · have hnc : next_card s = { s with phase := FlashPhase.finished } := by
            simp [next_card, hlast]
          rw [hnc] at hrun
          obtain ⟨hrest, _⟩ := flashRun_finished maxScore rest _ t rfl hrun
          subst hrest
          constructor
          · intro hh
            exact FlashPhase.noConfusion hh
          · intro _
            rw [countJudgments_advance]
            have : countJudgments ([] : List Signal) = 0 := rfl
            rw [this]
            omega
    | finished =>
      cases sig <;> simp [flashStep, hp] at hrun

/-- C4: starting a flashcard drill at card 0 in the hidden phase, any signal
sequence that reaches `Finished` contains exactly one judgment per card (N
judgments for a working set of size N); `Finished` arises only from an advance
on the last card out of the revealed phase; a judgment on the current card
mutates exactly that card's store item (by `applyCorrect` capped, or
`applyIncorrect`) and reveals the answer; and an advance on a non-last card
increments `current_index` and returns to the hidden phase. -/
theorem C4_flashcard_drill (maxScore : Int) :
    (∀ (store : List VocabItem) (ws : List Nat) (sigs : List Signal) (t : FlashState),
      ws ≠ [] →
      flashRun maxScore ⟨store, ws, 0, FlashPhase.hidden⟩ sigs = some t →
      t.phase = FlashPhase.finished →
      countJudgments sigs = ws.length) ∧
    (∀ (s : FlashState) (sig : Signal) (t : FlashState),
      flashStep maxScore s sig = some t → t.phase = FlashPhase.finished →
      s.currentIndex < s.ws.length →
      sig = Signal.advance ∧ s.phase = FlashPhase.revealed ∧
        s.currentIndex = s.ws.length - 1) ∧
    (∀ (s : FlashState) (idx : Nat) (it : VocabItem),
      s.phase = FlashPhase.hidden → s.ws[s.currentIndex]? = some idx →
      s.store[idx]? = some it →
      flashStep maxScore s Signal.correct =
        some { s with store := s.store.set idx (applyCorrect it maxScore),
                      phase := FlashPhase.revealed } ∧
      flashStep maxScore s Signal.incorrect =
        some { s with store := s.store.set idx (applyIncorrect it),
                      phase := FlashPhase.revealed } ∧
      (s.store.set idx (applyCorrect it maxScore))[idx]? = some (applyCorrect it maxScore) ∧
      (∀ j : Nat, j ≠ idx → (s.store.set idx (applyCorrect it maxScore))[j]? = s.store[j]?) ∧
      (∀ j : Nat, j ≠ idx → (s.store.set idx (applyIncorrect it))[j]? = s.store[j]?)) ∧
    (∀ s : FlashState, s.phase = FlashPhase.revealed →
      s.currentIndex < s.ws.length - 1 →
      flashStep maxScore s Signal.advance =
        some { s with currentIndex := s.currentIndex + 1, phase := FlashPhase.hidden }) := by
  refine ⟨?_, ?_, ?_, ?_⟩
  · intro store ws sigs t hne hrun hfin
    have h := flashRun_judgment_count maxScore sigs ⟨store, ws, 0, FlashPhase.hidden⟩ t hrun hfin
      (List.length_pos.mpr hne)
    simpa using h.1 rfl
  · intro s sig t hstep hfin hlt
    cases hp : s.phase with
    | hidden =>
      cases sig with
      | correct =>
        simp only [flashStep, hp] at hstep
        rw [← Option.some.inj hstep, mark_known_phase] at hfin
        exact FlashPhase.noConfusion hfin
      | incorrect =>
        simp only [flashStep, hp] at hstep
        rw [← Option.some.inj hstep, mark_unknown_phase] at hfin
        exact FlashPhase.noConfusion hfin
      | advance => simp [flashStep, hp] at hstep
    | revealed =>
      cases sig with
      | correct => simp [flashStep, hp] at hstep
      | incorrect => simp [flashStep, hp] at hstep
      | advance =>
        simp only [flashStep, hp] at hstep
        by_cases hlast : s.currentIndex < s.ws.length - 1
        · rw [← Option.some.inj hstep] at hfin
          simp [next_card, hlast] at hfin
        · exact ⟨rfl, rfl, by omega⟩
    | finished =>
      cases sig <;> simp [flashStep, hp] at hstep
  · intro s idx it hp hw hi
    have hidxlt : idx < s.store.length := by
      by_contra hge
      rw [List.getElem?_eq_none (Nat.le_of_not_lt hge)] at hi
      exact Option.noConfusion hi
    refine ⟨?_, ?_, ?_, ?_, ?_⟩
    · simp [flashStep, hp, mark_known, hw, mutateAt, hi]
    · simp [flashStep, hp, mark_unknown, hw, mutateAt, hi]
    · exact List.getElem?_set_eq_of_lt _ hidxlt
    · intro j hj
      exact List.getElem?_set_ne (Ne.symm hj)
    · intro j hj
      exact List.getElem?_set_ne (Ne.symm hj)
  · intro s hp hlast
    simp [flashStep, hp, next_card, hlast]

/-- Witness for C4: end-to-end scenario A on two cards (correct, advance,
incorrect, advance) reaches `Finished` after exactly 2 judgments. -/
theorem C4_flashcard_drill_witness :
    countJudgments [Signal.correct, Signal.advance, Signal.incorrect, Signal.advance] = 2 := by
  have h := (C4_flashcard_drill 10).1 store2 [0, 1]
    [Signal.correct, Signal.advance, Signal.incorrect, Signal.advance]
    ⟨[{ russian := "дом", english := "house", score := some 1 },
      { russian := "кот", english := "cat", score := some (-1) }], [0, 1], 1,
      FlashPhase.finished⟩
    (by decide) (by decide) rfl
  simpa using h

lemma getElem?_some_lt {l : List VocabItem} {i : Nat} {a : VocabItem}
    (h : l[i]? = some a) : i < l.length := by
  by_contra hge
  rw [List.getElem?_eq_none (Nat.le_of_not_lt hge)] at h
  exact Option.noConfusion h

/-- C5 (amended): the match check is a no-op unless both cursors are set.  When
both selected buttons carry the same item, that item's score rises by exactly 1
(capped) exactly once, both buttons are disabled for the round, both cursors
are cleared and the remaining-pairs counter decreases by 1.  When they carry
different items with distinct (term, definition, score) content, both items'
scores drop by exactly 1 independently, both cursors are cleared, and nothing
is disabled or decremented.  (Different items with identical content instead
take the match branch; see the counterexample.) -/
theorem C5_match_check (maxScore : Int) (s : MatchState) :
    ((s.selRussian = none ∨ s.selEnglish = none) → validate_match maxScore s = s) ∧
    (∀ (i : Nat) (it : VocabItem),
      s.selRussian = some i → s.selEnglish = some i → s.store[i]? = some it →
      (validate_match maxScore s).store = s.store.set i (applyCorrect it maxScore) ∧
      (validate_match maxScore s).store[i]? = some (applyCorrect it maxScore) ∧
      (∀ k : Nat, k ≠ i → (validate_match maxScore s).store[k]? = s.store[k]?) ∧
      (validate_match maxScore s).selRussian = none ∧
      (validate_match maxScore s).selEnglish = none ∧
      (validate_match maxScore s).disabledR = i :: s.disabledR ∧
      (validate_match maxScore s).disabledE = i :: s.disabledE ∧
      (validate_match maxScore s).remainingPairs = s.remainingPairs - 1) ∧
    (∀ (i j : Nat) (a b : VocabItem),
      s.selRussian = some i → s.selEnglish = some j →
      s.store[i]? = some a → s.store[j]? = some b → a ≠ b →
      (validate_match maxScore s).store =
        (s.store.set i (applyIncorrect a)).set j (applyIncorrect b) ∧
      (validate_match maxScore s).store[i]? = some (applyIncorrect a) ∧
      (validate_match maxScore s).store[j]? = some (applyIncorrect b) ∧
      (∀ k : Nat, k ≠ i → k ≠ j → (validate_match maxScore s).store[k]? = s.store[k]?) ∧
      (validate_match maxScore s).selRussian = none ∧
      (validate_match maxScore s).selEnglish = none ∧
      (validate_match maxScore s).disabledR = s.disabledR ∧
      (validate_match maxScore s).disabledE = s.disabledE ∧
      (validate_match maxScore s).remainingPairs = s.remainingPairs) := by
  refine ⟨?_, ?_, ?_⟩
  · intro h
    cases hr : s.selRussian with
    | none => simp [validate_match, hr]
    | some rIdx =>
      rcases h with h | h
      · rw [h] at hr
        exact Option.noConfusion hr
      · simp [validate_match, hr, h]
  · intro i it hr he hi
    have hlt : i < s.store.length := getElem?_some_lt hi
    have hv : validate_match maxScore s =
        { s with
          store := s.store.set i (applyCorrect it maxScore),
          selRussian := none, selEnglish := none,
          disabledR := i :: s.disabledR,
          disabledE := i :: s.disabledE,
          remainingPairs := s.remainingPairs - 1 } := by
      simp [validate_match, hr, he, hi]
    rw [hv]
    refine ⟨rfl, ?_, ?_, rfl, rfl, rfl, rfl, rfl⟩
    · exact List.getElem?_set_eq_of_lt _ hlt
    · intro k hk
      exact List.getElem?_set_ne (Ne.symm hk)
  · intro i j a b hr he ha hb hab
    have hij : i ≠ j := by
      intro h
      rw [h, hb] at ha
      exact hab (Option.some.inj ha).symm
    have hlti : i < s.store.length := getElem?_some_lt ha
    have hltj : j < s.store.length := getElem?_some_lt hb
    have hv : validate_match maxScore s =
        { s with
          store := (s.store.set i (applyIncorrect a)).set j (applyIncorrect b),
          selRussian := none, selEnglish := none } := by
      simp [validate_match, hr, he, ha, hb, hab]
    rw [hv]
    refine ⟨rfl, ?_, ?_, ?_, rfl, rfl, rfl, rfl, rfl⟩
    · show ((s.store.set i (applyIncorrect a)).set j (applyIncorrect b))[i]? =
        some (applyIncorrect a)
      rw [List.getElem?_set_ne (Ne.symm hij)]
      exact List.getElem?_set_eq_of_lt _ hlti
    · have hltj' : j < (s.store.set i (applyIncorrect a)).length := by
        rw [List.length_set]
        exact hltj
      exact List.getElem?_set_eq_of_lt _ hltj'
    · intro k hki hkj
      show ((s.store.set i (applyIncorrect a)).set j (applyIncorrect b))[k]? = s.store[k]?
      rw [List.getElem?_set_ne (Ne.symm hkj), List.getElem?_set_ne (Ne.symm hki)]

/-- Counterexample for C5 as frozen: with two distinct items of identical
content (`dupState` selects the term of item 0 and the definition of item 1),
the code does not decrement both scores by 1; it takes the match branch,
incrementing item 0 only and consuming a pair. -/
theorem C5_match_check_counterexample :
    (validate_match 10 dupState).store.map getScore ≠ [-1, -1] ∧
    (validate_match 10 dupState).store.map getScore = [1, 0] ∧
    (validate_match 10 dupState).remainingPairs = dupState.remainingPairs - 1 := by
  refine ⟨?_, ?_, ?_⟩ <;> decide

/-- Witness for C5 on a genuine mismatch (`mmState`): the term-side item's
score is decremented in place and the cursors are cleared. -/
theorem C5_match_check_witness :
    (validate_match 10 mmState).store[0]? =
      some (applyIncorrect { russian := "дом", english := "house", score := some 0 }) ∧
    (validate_match 10 mmState).selRussian = none := by
  have h := (C5_match_check 10 mmState).2.2 0 1
    { russian := "дом", english := "house", score := some 0 }
    { russian := "кот", english := "cat", score := some 3 }
    rfl rfl rfl rfl (by decide)
  exact ⟨h.2.1, h.2.2.2.2.1⟩

/-- C8: evaluation at the failing input.  `validate_match` compares items by
value equality of (term, definition, score), not by identity/position, so for
two distinct duplicate items (`dupState`: term button of item 0, definition
button of item 1) the pair is treated as a correct match: both buttons are
disabled, the pair counter is consumed, and item 0 gains a point. -/
theorem C8_duplicate_false_match :
    (validate_match 10 dupState).disabledR = [0] ∧
    (validate_match 10 dupState).disabledE = [1] ∧
    (validate_match 10 dupState).remainingPairs = 1 ∧
    (validate_match 10 dupState).store.map getScore = [1, 0] := by
  refine ⟨?_, ?_, ?_, ?_⟩ <;> decide

/-- C9 (amended): when a matching round is set up, the term (Russian) buttons
are laid out in working-set chunk order — they are not shuffled — while the
definition (English) buttons are shuffled by the round's single random
permutation, so the definition column is a permutation of the chunk and does
not align with the term column by position. -/
theorem C9_round_layout (ws : List Nat) (r : Nat) (f : List Nat → List Nat) :
    (start_round ws r f).russianCol = roundChunk ws r ∧
    (start_round ws r f).englishCol = f (roundChunk ws r) ∧
    ((∀ l : List Nat, (f l).Perm l) →
      ((start_round ws r f).englishCol).Perm (roundChunk ws r)) :=
  ⟨rfl, rfl, fun hf => hf _⟩

/-- Counterexample for C9 as frozen: for a concrete 3-item chunk and a concrete
(reversing) English shuffle, the term column equals the working-set order
exactly — the term column is not independently shuffled, only the English
column is. -/
theorem C9_round_layout_counterexample :
    (start_round [0, 1, 2] 0 List.reverse).russianCol = [0, 1, 2] ∧
    (start_round [0, 1, 2] 0 List.reverse).englishCol = [2, 1, 0] := by
  refine ⟨?_, ?_⟩ <;> decide

/-- Witness for C9 with the reversing shuffle on a 3-item chunk. -/
theorem C9_round_layout_witness :
    ((start_round [0, 1, 2] 0 List.reverse).englishCol).Perm (roundChunk [0, 1, 2] 0) :=
  (C9_round_layout [0, 1, 2] 0 List.reverse).2.2 (fun l => List.reverse_perm l)

/-- C7: for a non-empty category the matching working set has exactly
`min(rounds * 10, categorySize)` items; a working set of size `m >= 1` is cut
into `total_rounds m = ceil(m / 10)` chunks, every non-final chunk of size 10
and the final chunk of size `m % 10` when that remainder is non-zero (10
otherwise); in particular 15 items with 2 rounds give a 15-item working set
played as a round of 10 then a round of 5. -/
theorem C7_matching_rounds (store : List VocabItem) (rounds : Nat) (mode : Mode)
    (shuffle : List Nat → List Nat) (sample : Nat → List Nat → List Nat)
    (hne : store ≠ [])
    (hshuffle : ∀ l : List Nat, (shuffle l).Perm l)
    (hsample : ∀ (k : Nat) (l : List Nat), k ≤ l.length → (sample k l).length = k)
    (hrounds : 1 ≤ rounds) :
    (∀ ws : List Nat,
      (start_matching store mode rounds shuffle sample).1 = StartResult.drill ws →
      ws.length = min (rounds * 10) store.length) ∧
    (∀ (m r : Nat), 1 ≤ m → r < total_rounds m →
      ∀ ws : List Nat, ws.length = m →
        (r + 1 < total_rounds m → (roundChunk ws r).length = 10) ∧
        (r + 1 = total_rounds m →
          (roundChunk ws r).length = (if m % 10 = 0 then 10 else m % 10))) ∧
    (min (2 * 10) store15.length = 15 ∧ total_rounds 15 = 2 ∧
      ∀ ws : List Nat, ws.length = 15 →
        (roundChunk ws 0).length = 10 ∧ (roundChunk ws 1).length = 5) := by
  refine ⟨?_, ?_, ?_, ?_, ?_⟩
  · intro ws hws
    have hlen : ¬store.length = 0 := fun h => hne (List.length_eq_zero.mp h)
    have hpos : 0 < store.length := List.length_pos.mpr hne
    have hcpos : 0 < min (rounds * 10) store.length := lt_min (by omega) hpos
    cases mode with
    | weak =>
      simp only [start_matching, if_neg hlen, if_neg (Nat.pos_iff_ne_zero.mp hcpos)] at hws
      have hws' := StartResult.drill.inj hws
      rw [← hws', (hshuffle _).length_eq, selectWeak_length]
      exact Nat.min_eq_left (min_le_right _ _)
    | random =>
      simp only [start_matching, if_neg hlen, if_neg (Nat.pos_iff_ne_zero.mp hcpos)] at hws
      have hws' := StartResult.drill.inj hws
      rw [← hws']
      exact hsample _ _ (by rw [List.length_range]; exact min_le_right _ _)
  · intro m r hm hr ws hws
    have hlen : (roundChunk ws r).length = min round_size (m - r * round_size) := by
      rw [roundChunk, List.length_take, List.length_drop, hws]
    simp only [round_size] at hlen
    simp only [total_rounds, round_size] at hr
    constructor
    · intro hlt
      simp only [total_rounds, round_size] at hlt
      rw [hlen]
      omega
    · intro heq
      simp only [total_rounds, round_size] at heq
      rw [hlen]
      by_cases h0 : m % 10 = 0
      · rw [if_pos h0]
        omega
      · rw [if_neg h0]
        omega
  · simp [store15]
  · decide
  · intro ws hws
    constructor
    · rw [roundChunk, List.length_take, List.length_drop, hws]
      decide
    · rw [roundChunk, List.length_take, List.length_drop, hws]
      decide

/-- Witness for C7: 15 items, 2 rounds — round sizes 10 and 5. -/
theorem C7_matching_rounds_witness :
    total_rounds 15 = 2 ∧
    (roundChunk (List.range 15) 0).length = 10 ∧
    (roundChunk (List.range 15) 1).length = 5 := by
  have h := C7_matching_rounds store15 2 Mode.random (fun l => l) (fun k l => l.take k)
    (fun h => by simpa [store15] using congrArg List.length h)
    (fun l => List.Perm.refl l)
    (fun k l hk => by rw [List.length_take]; exact Nat.min_eq_left hk)
    (by decide)
  refine ⟨h.2.2.2.1, ?_, ?_⟩
  · exact (h.2.2.2.2 (List.range 15) (by simp)).1
  · exact (h.2.2.2.2 (List.range 15) (by simp)).2

lemma flashStep_frame (maxScore : Int) (s : FlashState) (sig : Signal) (s' : FlashState)
    (h : flashStep maxScore s sig = some s') :
    s'.store.length = s.store.length ∧
    ∀ j : Nat, (s'.store[j]?).map itemText = (s.store[j]?).map itemText := by
  rcases flashStep_store_cases maxScore s sig s' h with h0 | ⟨i, it, hi, hset⟩ | ⟨i, it, hi, hset⟩
  · rw [h0]
    exact ⟨rfl, fun j => rfl⟩
  · rw [hset]
    exact ⟨List.length_set _ _ _, set_text_preserved _ _ _ _ hi rfl⟩
  · rw [hset]
    exact ⟨List.length_set _ _ _, set_text_preserved _ _ _ _ hi rfl⟩

lemma flashFold_frame (maxScore : Int) :
    ∀ (sigs : List Signal) (s : FlashState),
      (flashFold maxScore s sigs).store.length = s.store.length ∧
      ∀ j : Nat, ((flashFold maxScore s sigs).store[j]?).map itemText =
        (s.store[j]?).map itemText := by
  intro sigs
  induction sigs with
  | nil => exact fun s => ⟨rfl, fun j => rfl⟩
  | cons sig rest ih =>
    intro s
    have hstep : ((flashStep maxScore s sig).getD s).store.length = s.store.length ∧
        ∀ j : Nat, (((flashStep maxScore s sig).getD s).store[j]?).map itemText =
          (s.store[j]?).map itemText := by
      cases h : flashStep maxScore s sig with
      | none => exact ⟨rfl, fun j => rfl⟩
      | some s' => simpa using flashStep_frame maxScore s sig s' h
    obtain ⟨ih1, ih2⟩ := ih ((flashStep maxScore s sig).getD s)
    constructor
    · show (flashFold maxScore ((flashStep maxScore s sig).getD s) rest).store.length =
        s.store.length
      rw [ih1, hstep.1]
    · intro j
      exact (ih2 j).trans (hstep.2 j)

lemma handle_click_frame (maxScore : Int) (s : MatchState) (col : Column) (idx : Nat) :
    (handle_click maxScore s col idx).store.length = s.store.length ∧
    ∀ k : Nat, ((handle_click maxScore s col idx).store[k]?).map itemText =
      (s.store[k]?).map itemText := by
  rcases handle_click_store_cases maxScore s col idx with
    h0 | ⟨i, it, hi, hset⟩ | ⟨i, j, a, b, hij, ha, hb, hset⟩
  · rw [h0]
    exact ⟨rfl, fun k => rfl⟩
  · rw [hset]
    exact ⟨List.length_set _ _ _, set_text_preserved _ _ _ _ hi rfl⟩
  · rw [hset]
    constructor
    · rw [List.length_set, List.length_set]
    · intro k
      have hb' : (s.store.set i (applyIncorrect a))[j]? = some b := by
        rw [List.getElem?_set_ne hij]
        exact hb
      exact (set_text_preserved (s.store.set i (applyIncorrect a)) j b (applyIncorrect b)
        hb' rfl k).trans (set_text_preserved s.store i a (applyIncorrect a) ha rfl k)

lemma clickFold_frame (maxScore : Int) :
    ∀ (clicks : List (Column × Nat)) (s : MatchState),
      (clickFold maxScore s clicks).store.length = s.store.length ∧
      ∀ k : Nat, ((clickFold maxScore s clicks).store[k]?).map itemText =
        (s.store[k]?).map itemText := by
  intro clicks
  induction clicks with
  | nil => exact fun s => ⟨rfl, fun k => rfl⟩
  | cons c rest ih =>
    intro s
    obtain ⟨ih1, ih2⟩ := ih (handle_click maxScore s c.1 c.2)
    obtain ⟨h1, h2⟩ := handle_click_frame maxScore s c.1 c.2
    constructor
    · show (clickFold maxScore (handle_click maxScore s c.1 c.2) rest).store.length =
        s.store.length
      rw [ih1, h1]
    · intro k
      exact (ih2 k).trans (h2 k)

lemma start_practice_snd (store : List VocabItem) (mode : Mode) (count : Nat)
    (shuffle : List Nat → List Nat) (sample : Nat → List Nat → List Nat) :
    (start_practice store mode count shuffle sample).2 = store := by
  unfold start_practice
  split
  · rfl
  · cases mode <;> rfl

lemma start_matching_snd (store : List VocabItem) (mode : Mode) (rounds : Nat)
    (shuffle : List Nat → List Nat) (sample : Nat → List Nat → List Nat) :
    (start_matching store mode rounds shuffle sample).2 = store := by
  cases mode <;>
    (unfold start_matching
     split
     · rfl
     · by_cases h2 : rounds * 10 ⊓ store.length = 0
       · simp [h2]
       · simp [h2])

/-- C10: drill mutations are frame-limited and applied in place on the shared
store.  Any interleaving of flashcard signals or matching clicks (including an
abandoned prefix) preserves the category's size and every item's term and
definition at every position — only score fields change; a flashcard judgment's
score update is immediately visible in the store at the judged index with no
merge step; selection (`start_practice` / `start_matching`) never modifies the
store; and running a prefix then a suffix equals running their concatenation,
so mutations already applied persist when a drill is abandoned — there is no
rollback. -/
theorem C10_frame_and_persistence (maxScore : Int) :
    (∀ (s : FlashState) (sigs : List Signal),
      (flashFold maxScore s sigs).store.length = s.store.length ∧
      ∀ j : Nat, ((flashFold maxScore s sigs).store[j]?).map itemText =
        (s.store[j]?).map itemText) ∧
    (∀ (s : MatchState) (clicks : List (Column × Nat)),
      (clickFold maxScore s clicks).store.length = s.store.length ∧
      ∀ k : Nat, ((clickFold maxScore s clicks).store[k]?).map itemText =
        (s.store[k]?).map itemText) ∧
    (∀ (s : FlashState) (idx : Nat) (it : VocabItem),
      s.phase = FlashPhase.hidden → s.ws[s.currentIndex]? = some idx →
      s.store[idx]? = some it →
      flashStep maxScore s Signal.correct = some (mark_known maxScore s) ∧
      (mark_known maxScore s).store[idx]? = some (applyCorrect it maxScore) ∧
      (mark_unknown s).store[idx]? = some (applyIncorrect it)) ∧
    (∀ (store : List VocabItem) (mode : Mode) (count rounds : Nat)
        (shuffle : List Nat → List Nat) (sample : Nat → List Nat → List Nat),
      (start_practice store mode count shuffle sample).2 = store ∧
      (start_matching store mode rounds shuffle sample).2 = store) ∧
    (∀ (s : FlashState) (p q : List Signal),
      flashFold maxScore s (p ++ q) = flashFold maxScore (flashFold maxScore s p) q) := by
  refine ⟨?_, ?_, ?_, ?_, ?_⟩
  · exact fun s sigs => flashFold_frame maxScore sigs s
  · exact fun s clicks => clickFold_frame maxScore clicks s
  · intro s idx it hp hw hi
    have hlt : idx < s.store.length := getElem?_some_lt hi
    refine ⟨by simp [flashStep, hp], ?_, ?_⟩
    · simp only [mark_known, hw, mutateAt, hi]
      exact List.getElem?_set_eq_of_lt _ hlt
    · simp only [mark_unknown, hw, mutateAt, hi]
      exact List.getElem?_set_eq_of_lt _ hlt
  · exact fun store mode count rounds shuffle sample =>
      ⟨start_practice_snd store mode count shuffle sample,
        start_matching_snd store mode rounds shuffle sample⟩
  · intro s p q
    simp [flashFold, List.foldl_append]

/-- Witness for C10: the judgment on card 0 of `store2` is immediately visible
in the store through the shared reference. -/
theorem C10_frame_and_persistence_witness :
    (mark_known 10 ⟨store2, [0, 1], 0, FlashPhase.hidden⟩).store[0]? =
      some (applyCorrect { russian := "дом", english := "house", score := some 0 } 10) :=
  ((C10_frame_and_persistence 10).2.2.1 ⟨store2, [0, 1], 0, FlashPhase.hidden⟩ 0
    { russian := "дом", english := "house", score := some 0 } rfl rfl rfl).2.1
